import Mathlib

/-!
Verification of the training script `buildings-example/train.py`.

The script is an epoch loop: each epoch runs a training pass, a validation
pass, computes epoch losses, updates a best-so-far state under a strict
less-than rule, and saves a model checkpoint under a separate equality
condition.  The embedding below models the loop as a state machine over
rational numbers (the per-batch mean losses produced by the opaque ML
backend are carried as data), and models the real-valued parts of the
claims (sigmoid, binary cross-entropy) over the reals.
-/

namespace TrainPy

/-! ## Batching (DataLoader semantics)

Modelled from the spec: the Batch Source contract.  The torch DataLoader
(external to this repository) with `drop_last` unset splits a dataset of
n examples into consecutive batches of size b, the final batch possibly
smaller.  `chunks` is that splitting; it is fuel-structural so that it
evaluates on concrete inputs. -/

def chunksFuel (b : ℕ) : ℕ → List α → List (List α)
  | 0, _ => []
  | _ + 1, [] => []
  | fuel + 1, x :: xs => (x :: xs.take (b - 1)) :: chunksFuel b fuel (xs.drop (b - 1))

def chunks (b : ℕ) (xs : List α) : List (List α) :=
  chunksFuel b xs.length xs

/-- The tqdm display totals at lines 123-124 of the source:
`train_batches = 1 + len(train_data) // batch_size`. -/
def train_batches (n b : ℕ) : ℕ := 1 + n / b

/-! ## Predictor (`Model.forward`, lines 86-92)

A tensor is modelled as a 3-D block (batch x timesteps x bands) together
with a `requiresGrad` flag.  Differentiable torch operations propagate the
flag only when gradient mode is on; the `with torch.no_grad()` scope at
line 87 runs the rescale and transpose with gradient mode off.  The
TransformerModel is an opaque external collaborator: it is a parameter
mapping one example (a bands x timesteps matrix after the transpose) to a
scalar logit (`c_out = 1`, with `squeeze(dim=1)` removing the unit axis). -/

structure TTensor where
  data : List (List (List ℝ))
  requiresGrad : Bool

noncomputable def scaleT (gradMode : Bool) (c : ℝ) (t : TTensor) : TTensor :=
  ⟨t.data.map fun ex => ex.map fun row => row.map fun v => v * c,
   t.requiresGrad && gradMode⟩

def transposeT (gradMode : Bool) (t : TTensor) : TTensor :=
  ⟨t.data.map List.transpose, t.requiresGrad && gradMode⟩

noncomputable def sigmoid (z : ℝ) : ℝ := 1 / (1 + Real.exp (-z))

/-- Lines 86-92 of the source: `x = x * 1e-4; x = x.transpose(2, 1)` inside
`torch.no_grad()`, then `self.model(x).squeeze(dim=1)` and `torch.sigmoid`. -/
noncomputable def forward (seqModel : List (List ℝ) → ℝ) (x : TTensor) : List ℝ :=
  let x1 := scaleT false (1 / 10000) x
  let x2 := transposeT false x1
  (x2.data.map seqModel).map sigmoid

/-- The intermediate tensor produced by the preprocessing scope. -/
noncomputable def preprocessed (x : TTensor) : TTensor :=
  transposeT false (scaleT false (1 / 10000) x)

/-! ## Binary cross-entropy loss (torch.nn.BCELoss, external)

Modelled from the spec: `BCE(p, y) = -mean(y*log p + (1-y)*log(1-p))`.
The criterion returns the mean over the batch; the loop accumulates
`loss.item() * len(inputs)` (lines 150 and 171) and divides the epoch
total by the dataset size (lines 178-179). -/

noncomputable def bce (y p : ℝ) : ℝ := -(y * Real.log p + (1 - y) * Real.log (1 - p))

noncomputable def batchLoss (c : List (ℝ × ℝ)) : ℝ :=
  ((c.map fun e => bce e.1 e.2).sum) / c.length

noncomputable def runningTotal (P : List (List (ℝ × ℝ))) : ℝ :=
  (P.map fun c => batchLoss c * c.length).sum

noncomputable def epochLoss (P : List (List (ℝ × ℝ))) (n : ℕ) : ℝ :=
  runningTotal P / n

/-! ## Classification metrics (sklearn, external)

Modelled from the spec: the statistics library calls at lines 184-188.
True labels are the collected floats (values 0 or 1), predictions the
collected ints.  `roc_auc_score` is the Mann-Whitney pair statistic, the
value sklearn computes for a binary problem (ties count one half);
sklearn raises when only one class is present, so theorems about it carry
a both-classes hypothesis. -/

def matchCount (y_true : List ℚ) (y_pred : List ℕ) : ℕ :=
  (y_true.zip y_pred).countP fun e => decide (e.1 = (e.2 : ℚ))

def tpCount (y_true : List ℚ) (y_pred : List ℕ) : ℕ :=
  (y_true.zip y_pred).countP fun e => decide (e.1 = 1) && decide (e.2 = 1)

def fpCount (y_true : List ℚ) (y_pred : List ℕ) : ℕ :=
  (y_true.zip y_pred).countP fun e => (!decide (e.1 = 1)) && decide (e.2 = 1)

def fnCount (y_true : List ℚ) (y_pred : List ℕ) : ℕ :=
  (y_true.zip y_pred).countP fun e => decide (e.1 = 1) && (!decide (e.2 = 1))

def accuracy_score (y_true : List ℚ) (y_pred : List ℕ) : ℚ :=
  (matchCount y_true y_pred : ℚ) / (y_true.length : ℚ)

def precision_score (y_true : List ℚ) (y_pred : List ℕ) : ℚ :=
  let t := tpCount y_true y_pred
  let f := fpCount y_true y_pred
  if t + f = 0 then 0 else (t : ℚ) / ((t : ℚ) + (f : ℚ))

def recall_score (y_true : List ℚ) (y_pred : List ℕ) : ℚ :=
  let t := tpCount y_true y_pred
  let f := fnCount y_true y_pred
  if t + f = 0 then 0 else (t : ℚ) / ((t : ℚ) + (f : ℚ))

def f1_score (y_true : List ℚ) (y_pred : List ℕ) : ℚ :=
  let t := tpCount y_true y_pred
  let p := fpCount y_true y_pred
  let n := fnCount y_true y_pred
  if 2 * t + p + n = 0 then 0 else (2 * t : ℚ) / ((2 * t + p + n : ℕ) : ℚ)

def aucPair (a c : ℚ) : ℚ := if c < a then 1 else if a = c then 1 / 2 else 0

def posScores (y_true y_score : List ℚ) : List ℚ :=
  ((y_true.zip y_score).filter fun e => decide (e.1 = 1)).map Prod.snd

def negScores (y_true y_score : List ℚ) : List ℚ :=
  ((y_true.zip y_score).filter fun e => !decide (e.1 = 1)).map Prod.snd

def roc_auc_score (y_true y_score : List ℚ) : ℚ :=
  ((posScores y_true y_score).map fun a =>
      ((negScores y_true y_score).map fun c => aucPair a c).sum).sum /
    (((posScores y_true y_score).length : ℚ) * ((negScores y_true y_score).length : ℚ))

/-- Python3 `round(x, 4)` at line 190: round half to even (bankers rounding)
at the fourth decimal. -/
def bankersRound (q : ℚ) : ℤ :=
  let f := ⌊q⌋
  let r := q - (f : ℚ)
  if r < 1 / 2 then f else if 1 / 2 < r then f + 1 else if f % 2 = 0 then f else f + 1

def pyRound4 (q : ℚ) : ℚ := (bankersRound (q * 10000) : ℚ) / 10000

/-! ## The epoch loop state machine (lines 121-218)

Per-batch mean losses are opaque numeric outputs of the ML backend and are
carried as data in `EpochData`; everything the script itself computes from
them is modelled exactly.  Model parameters after an epoch of training are
an opaque token (ℕ); the checkpoint on disk is the token saved last. -/

structure ValBatch where
  labels : List ℚ
  scores : List ℚ
  meanLoss : ℚ
deriving DecidableEq

structure EpochData where
  trainBatches : List (ℚ × ℕ)
  valBatches : List ValBatch
  params : ℕ
deriving DecidableEq

structure TrainState where
  lowest_validation_loss : Option ℚ
  metrics : List (String × ℚ)
  checkpoint : Option ℕ
  total_train_loss : ℚ
  total_val_loss : ℚ
  y_true : List ℚ
  y_score : List ℚ
  y_pred : List ℕ
  savedThisEpoch : Bool
deriving DecidableEq

/-- Line 175: `(outputs > 0.5).long()`. -/
def predOf (s : ℚ) : ℕ := if 1 / 2 < s then 1 else 0

def collectedLabels (e : EpochData) : List ℚ := (e.valBatches.map ValBatch.labels).flatten

def collectedScores (e : EpochData) : List ℚ := (e.valBatches.map ValBatch.scores).flatten

def collectedPreds (e : EpochData) : List ℕ :=
  (e.valBatches.map fun b => b.scores.map predOf).flatten

/-- Lines 130 and 150: training loss total accumulated from zero. -/
def totalTrainLossOf (e : EpochData) : ℚ :=
  (e.trainBatches.map fun b => b.1 * (b.2 : ℚ)).sum

/-- Lines 153 and 171: validation loss total accumulated from zero. -/
def totalValLossOf (e : EpochData) : ℚ :=
  (e.valBatches.map fun b => b.meanLoss * (b.labels.length : ℚ)).sum

/-- Line 179: `val_loss = total_val_loss / len(val_data)`; since the
DataLoader partitions the validation set, `len(val_data)` is the number of
collected labels. -/
def valLossOf (e : EpochData) : ℚ :=
  totalValLossOf e / ((collectedLabels e).length : ℚ)

/-- Line 181: `lowest_validation_loss is None or val_loss < lowest_validation_loss`. -/
def fires (best : Option ℚ) (v : ℚ) : Bool :=
  match best with
  | none => true
  | some b => decide (v < b)

/-- Lines 183-190: the metrics dict, each value rounded to 4 decimals. -/
def computeMetrics (yt ys : List ℚ) (yp : List ℕ) : List (String × ℚ) :=
  [("accuracy", pyRound4 (accuracy_score yt yp)),
   ("f1", pyRound4 (f1_score yt yp)),
   ("precision", pyRound4 (precision_score yt yp)),
   ("recall", pyRound4 (recall_score yt yp)),
   ("roc_auc", pyRound4 (roc_auc_score yt ys))]

/-- One iteration of the epoch loop, lines 129-218.  The working variables
(loss totals and collected lists) are reassigned from scratch each epoch,
as in the source; the best state is updated under the strict rule of line
181; the save of lines 213-218 is gated by the separate equality test
`lowest_validation_loss == val_loss`, evaluated after the possible update. -/
def epochStep (s : TrainState) (e : EpochData) : TrainState :=
  let total_train_loss := totalTrainLossOf e
  let total_val_loss := totalValLossOf e
  let y_true := collectedLabels e
  let y_score := collectedScores e
  let y_pred := collectedPreds e
  let val_loss := valLossOf e
  let f := fires s.lowest_validation_loss val_loss
  let lowest := if f then some val_loss else s.lowest_validation_loss
  let m := if f then computeMetrics y_true y_score y_pred else s.metrics
  let saved := decide (lowest = some val_loss)
  let checkpoint := if saved then some e.params else s.checkpoint
  ⟨lowest, m, checkpoint, total_train_loss, total_val_loss, y_true, y_score, y_pred, saved⟩

/-- Lines 121-124: initial state before the loop. -/
def initState : TrainState := ⟨none, [], none, 0, 0, [], [], [], false⟩

def runTrain (es : List EpochData) : TrainState := es.foldl epochStep initState

/-- The states reached from `s` along a list of epochs (head is `s`). -/
def statesFrom (s : TrainState) : List EpochData → List TrainState
  | [] => [s]
  | e :: es => s :: statesFrom (epochStep s e) es

/-- The state after each prefix of epochs (head is the initial state). -/
def trainStates (es : List EpochData) : List TrainState := statesFrom initState es

/-- Number of epochs in which the checkpoint save of lines 213-218 ran. -/
def countWrites (es : List EpochData) : ℕ :=
  ((trainStates es).drop 1).countP fun s => s.savedThisEpoch

/-- Lines 220-221: the final prints, the model name line and the yaml dump
of the best metrics mapping. -/
def finalReport (model_name : String) (es : List EpochData) : String × List (String × ℚ) :=
  ("MODEL_NAME=" ++ model_name, (runTrain es).metrics)

/-! ## Concrete runs used for counterexamples -/

/-- An epoch whose single validation batch has one example, label 1, score
3/4, and batch mean loss 1, so the epoch validation loss is 1. -/
def tieEpoch (p : ℕ) : EpochData := ⟨[], [⟨[1], [3 / 4], 1⟩], p⟩

/-- An epoch with validation loss 2 (worse than `tieEpoch`, not a tie). -/
def worseEpoch (p : ℕ) : EpochData := ⟨[], [⟨[1], [3 / 4], 2⟩], p⟩

/-- An epoch whose validation batch holds one example of each class. -/
def twoClassEpoch : EpochData := ⟨[], [⟨[1, 0], [3 / 4, 1 / 4], 1 / 2⟩], 0⟩

/-! ## Lemmas about batching -/

theorem chunksFuel_of_le {α : Type} (b : ℕ) :
    ∀ (n : ℕ) (xs : List α), xs.length ≤ n → chunksFuel b n xs = chunks b xs := by
  intro n
  induction n using Nat.strong_induction_on with
  | _ n ih =>
    intro xs h
    cases n with
    | zero =>
      have hxs : xs = [] := List.eq_nil_of_length_eq_zero (Nat.le_zero.mp h)
      subst hxs
      rfl
    | succ m =>
      cases xs with
      | nil => rfl
      | cons x l =>
        have hlen : l.length ≤ m := by simpa using h
        have hdd : (l.drop (b - 1)).length ≤ l.length := by
          rw [List.length_drop]
          omega
        have h1 : chunksFuel b m (l.drop (b - 1)) = chunks b (l.drop (b - 1)) :=
          ih m (Nat.lt_succ_self m) _ (Nat.le_trans hdd hlen)
        have h2 : chunksFuel b l.length (l.drop (b - 1)) = chunks b (l.drop (b - 1)) :=
          ih l.length (by omega) _ hdd
        calc chunksFuel b (m + 1) (x :: l)
            = (x :: l.take (b - 1)) :: chunksFuel b m (l.drop (b - 1)) := rfl
          _ = (x :: l.take (b - 1)) :: chunksFuel b l.length (l.drop (b - 1)) := by
              rw [h1, h2]
          _ = chunks b (x :: l) := rfl

theorem chunks_nil {α : Type} (b : ℕ) : chunks b ([] : List α) = [] := rfl

theorem chunks_cons {α : Type} (b : ℕ) (x : α) (l : List α) :
    chunks b (x :: l) = (x :: l.take (b - 1)) :: chunks b (l.drop (b - 1)) := by
  show chunksFuel b (l.length + 1) (x :: l) = _
  show (x :: l.take (b - 1)) :: chunksFuel b l.length (l.drop (b - 1)) = _
  rw [chunksFuel_of_le b l.length _ (by simp [List.length_drop])]

theorem chunks_flatten_aux {α : Type} (b : ℕ) :
    ∀ (n : ℕ) (xs : List α), xs.length ≤ n → (chunks b xs).flatten = xs := by
  intro n
  induction n with
  | zero =>
    intro xs h
    have hxs : xs = [] := List.eq_nil_of_length_eq_zero (Nat.le_zero.mp h)
    subst hxs
    rfl
  | succ n ih =>
    intro xs h
    cases xs with
    | nil => rfl
    | cons x l =>
      have hlen : l.length ≤ n := by simpa using h
      rw [chunks_cons, List.flatten_cons,
        ih (l.drop (b - 1)) (Nat.le_trans (by simp [List.length_drop]) hlen)]
      simp [List.take_append_drop]

/-- The batches cover the dataset exactly, in order. -/
theorem chunks_flatten {α : Type} (b : ℕ) (xs : List α) : (chunks b xs).flatten = xs :=
  chunks_flatten_aux b xs.length xs (Nat.le_refl _)

theorem chunks_eq_nil_iff {α : Type} (b : ℕ) (xs : List α) :
    chunks b xs = [] ↔ xs = [] := by
  cases xs with
  | nil => simp [chunks_nil]
  | cons x l => simp [chunks_cons]

theorem chunks_length_aux {α : Type} (b : ℕ) (hb : 1 ≤ b) :
    ∀ (n : ℕ) (xs : List α), xs.length ≤ n →
      (chunks b xs).length = (xs.length + b - 1) / b := by
  intro n
  induction n with
  | zero =>
    intro xs h
    have hxs : xs = [] := List.eq_nil_of_length_eq_zero (Nat.le_zero.mp h)
    subst hxs
    simp [chunks_nil, Nat.div_eq_of_lt (by omega : b - 1 < b)]
  | succ n ih =>
    intro xs h
    cases xs with
    | nil => simp [chunks_nil, Nat.div_eq_of_lt (by omega : b - 1 < b)]
    | cons x l =>
      have hlen : l.length ≤ n := by simpa using h
      rw [chunks_cons, List.length_cons,
        ih (l.drop (b - 1)) (Nat.le_trans (by simp [List.length_drop]) hlen)]
      simp only [List.length_drop, List.length_cons]
      rcases Nat.le_total (b - 1) l.length with hc | hc
      · have h1 : l.length - (b - 1) + b - 1 = l.length := by omega
        have h2 : l.length + 1 + b - 1 = l.length + b := by omega
        rw [h1, h2, Nat.add_div_right _ (by omega : 0 < b)]
      · have h1 : l.length - (b - 1) = 0 := by omega
        have h2 : l.length + 1 + b - 1 = l.length + b := by omega
        rw [h1, h2]
        have h3 : (0 + b - 1) / b = 0 := Nat.div_eq_of_lt (by omega)
        have h4 : (l.length + b) / b = 1 := by
          apply Nat.div_eq_of_lt_le <;> omega
        rw [h3, h4]

/-- Batch count is the ceiling of datasetSize / batchSize. -/
theorem chunks_length {α : Type} (b : ℕ) (hb : 1 ≤ b) (xs : List α) :
    (chunks b xs).length = (xs.length + b - 1) / b :=
  chunks_length_aux b hb xs.length xs (Nat.le_refl _)

theorem chunks_mem_length_aux {α : Type} (b : ℕ) (hb : 1 ≤ b) :
    ∀ (n : ℕ) (xs : List α), xs.length ≤ n →
      ∀ c ∈ chunks b xs, 1 ≤ c.length ∧ c.length ≤ b := by
  intro n
  induction n with
  | zero =>
    intro xs h
    have hxs : xs = [] := List.eq_nil_of_length_eq_zero (Nat.le_zero.mp h)
    subst hxs
    simp [chunks_nil]
  | succ n ih =>
    intro xs h c hc
    cases xs with
    | nil => simp [chunks_nil] at hc
    | cons x l =>
      have hlen : l.length ≤ n := by simpa using h
      rw [chunks_cons] at hc
      rcases List.mem_cons.mp hc with hc | hc
      · subst hc
        constructor
        · simp
        · simp [List.length_take]
          omega
      · exact ih (l.drop (b - 1))
          (Nat.le_trans (by simp [List.length_drop]) hlen) c hc

/-- Every batch is nonempty and no larger than the batch size. -/
theorem chunks_mem_length {α : Type} (b : ℕ) (hb : 1 ≤ b) (xs : List α) :
    ∀ c ∈ chunks b xs, 1 ≤ c.length ∧ c.length ≤ b :=
  chunks_mem_length_aux b hb xs.length xs (Nat.le_refl _)

theorem chunks_full_aux {α : Type} (b : ℕ) (hb : 1 ≤ b) :
    ∀ (n : ℕ) (xs : List α), xs.length ≤ n →
      ∀ i (hi : i + 1 < (chunks b xs).length),
        ((chunks b xs).get ⟨i, Nat.lt_of_succ_lt hi⟩).length = b := by
  intro n
  induction n with
  | zero =>
    intro xs h i hi
    have hxs : xs = [] := List.eq_nil_of_length_eq_zero (Nat.le_zero.mp h)
    subst hxs
    simp [chunks_nil] at hi
  | succ n ih =>
    intro xs h i hi
    cases xs with
    | nil => simp [chunks_nil] at hi
    | cons x l =>
      have hlen : l.length ≤ n := by simpa using h
      have hdl : (l.drop (b - 1)).length ≤ n :=
        Nat.le_trans (by simp [List.length_drop]) hlen
      cases i with
      | zero =>
        have hne : chunks b (l.drop (b - 1)) ≠ [] := by
          rw [chunks_cons] at hi
          simp at hi
          intro hnil
          rw [hnil] at hi
          simp at hi
        have hdrop_ne : l.drop (b - 1) ≠ [] := by
          intro hnil
          exact hne (by rw [hnil, chunks_nil])
        have hlb : b - 1 < l.length := by
          by_contra hcon
          exact hdrop_ne (List.drop_eq_nil_of_le (by omega))
        simp [chunks_cons, List.length_take]
        omega
      | succ j =>
        have hi2 : j + 1 < (chunks b (l.drop (b - 1))).length := by
          rw [chunks_cons] at hi
          simpa using hi
        have := ih (l.drop (b - 1)) hdl j hi2
        simpa [chunks_cons] using this

/-- All batches except possibly the final one have exactly the batch size. -/
theorem chunks_full {α : Type} (b : ℕ) (hb : 1 ≤ b) (xs : List α) :
    ∀ i (hi : i + 1 < (chunks b xs).length),
      ((chunks b xs).get ⟨i, Nat.lt_of_succ_lt hi⟩).length = b :=
  chunks_full_aux b hb xs.length xs (Nat.le_refl _)

/-! ## Lemmas about the epoch loop -/

theorem fires_none (v : ℚ) : fires none v = true := rfl

theorem fires_some (b v : ℚ) : fires (some b) v = decide (v < b) := rfl

theorem epochStep_lowest (s : TrainState) (e : EpochData) :
    (epochStep s e).lowest_validation_loss =
      if fires s.lowest_validation_loss (valLossOf e) then some (valLossOf e)
      else s.lowest_validation_loss := rfl

theorem epochStep_metrics (s : TrainState) (e : EpochData) :
    (epochStep s e).metrics =
      if fires s.lowest_validation_loss (valLossOf e) then
        computeMetrics (collectedLabels e) (collectedScores e) (collectedPreds e)
      else s.metrics := rfl

theorem epochStep_saved (s : TrainState) (e : EpochData) :
    (epochStep s e).savedThisEpoch =
      decide ((epochStep s e).lowest_validation_loss = some (valLossOf e)) := rfl

theorem epochStep_checkpoint (s : TrainState) (e : EpochData) :
    (epochStep s e).checkpoint =
      if (epochStep s e).savedThisEpoch then some e.params else s.checkpoint := rfl

theorem epochStep_y_true (s : TrainState) (e : EpochData) :
    (epochStep s e).y_true = collectedLabels e := rfl

theorem epochStep_y_score (s : TrainState) (e : EpochData) :
    (epochStep s e).y_score = collectedScores e := rfl

theorem epochStep_y_pred (s : TrainState) (e : EpochData) :
    (epochStep s e).y_pred = collectedPreds e := rfl

theorem epochStep_total_train (s : TrainState) (e : EpochData) :
    (epochStep s e).total_train_loss = totalTrainLossOf e := rfl

theorem epochStep_total_val (s : TrainState) (e : EpochData) :
    (epochStep s e).total_val_loss = totalValLossOf e := rfl

/-- The save at line 213 runs exactly when the best was just updated or the
epoch validation loss ties the previous best exactly. -/
theorem epochStep_saved_iff (s : TrainState) (e : EpochData) :
    (epochStep s e).savedThisEpoch = true ↔
      (s.lowest_validation_loss = none ∨
        ∃ b, s.lowest_validation_loss = some b ∧ valLossOf e ≤ b) := by
  rw [epochStep_saved, epochStep_lowest]
  cases hs : s.lowest_validation_loss with
  | none => simp [fires_none]
  | some b =>
    rw [fires_some]
    by_cases hlt : valLossOf e < b
    · simp [hlt]
      exact le_of_lt hlt
    · simp [hlt]
      constructor
      · intro hbv
        exact le_of_eq hbv.symm
      · intro h
        exact le_antisymm (not_lt.mp hlt) h

theorem epochStep_saved_of_fires (s : TrainState) (e : EpochData)
    (h : fires s.lowest_validation_loss (valLossOf e) = true) :
    (epochStep s e).savedThisEpoch = true := by
  rw [epochStep_saved, epochStep_lowest, h]
  simp

theorem epochStep_lowest_none (s : TrainState) (e : EpochData)
    (h : s.lowest_validation_loss = none) :
    (epochStep s e).lowest_validation_loss = some (valLossOf e) := by
  rw [epochStep_lowest, h, fires_none]
  simp

theorem epochStep_lowest_le (s : TrainState) (e : EpochData) (b : ℚ)
    (h : s.lowest_validation_loss = some b) :
    ∃ c, (epochStep s e).lowest_validation_loss = some c ∧ c ≤ b := by
  rw [epochStep_lowest, h, fires_some]
  by_cases hlt : valLossOf e < b
  · exact ⟨valLossOf e, by simp [hlt], le_of_lt hlt⟩
  · exact ⟨b, by simp [hlt], le_refl b⟩

theorem epochStep_lowest_isSome (s : TrainState) (e : EpochData)
    (h : s.lowest_validation_loss.isSome = true) :
    (epochStep s e).lowest_validation_loss.isSome = true := by
  rw [epochStep_lowest]
  cases hf : fires s.lowest_validation_loss (valLossOf e) <;> simp [h]

theorem foldl_lowest_isSome :
    ∀ (es : List EpochData) (s : TrainState),
      s.lowest_validation_loss.isSome = true →
      ((es.foldl epochStep s).lowest_validation_loss).isSome = true := by
  intro es
  induction es with
  | nil => intro s h; simpa using h
  | cons e es ih =>
    intro s h
    exact ih (epochStep s e) (epochStep_lowest_isSome s e h)

theorem runTrain_cons (e : EpochData) (es : List EpochData) :
    runTrain (e :: es) = es.foldl epochStep (epochStep initState e) := rfl

theorem runTrain_append_one (es : List EpochData) (e : EpochData) :
    runTrain (es ++ [e]) = epochStep (runTrain es) e := by
  simp [runTrain, List.foldl_append]

theorem runTrain_lowest_isSome (es : List EpochData) (h : es ≠ []) :
    ∃ b, (runTrain es).lowest_validation_loss = some b := by
  cases es with
  | nil => exact absurd rfl h
  | cons e es =>
    rw [runTrain_cons]
    have h1 : (epochStep initState e).lowest_validation_loss.isSome = true := by
      rw [epochStep_lowest_none initState e rfl]
      rfl
    have := foldl_lowest_isSome es (epochStep initState e) h1
    exact Option.isSome_iff_exists.mp this

theorem statesFrom_length (s : TrainState) :
    ∀ es : List EpochData, (statesFrom s es).length = es.length + 1 := by
  intro es
  induction es generalizing s with
  | nil => rfl
  | cons e es ih => simp [statesFrom, ih]

theorem statesFrom_cons_shape (s : TrainState) (es : List EpochData) :
    ∃ t, statesFrom s es = s :: t := by
  cases es <;> exact ⟨_, rfl⟩

theorem countWrites_le (es : List EpochData) : countWrites es ≤ es.length := by
  have h1 : ((trainStates es).drop 1).length = es.length := by
    simp [trainStates, statesFrom_length]
  calc countWrites es ≤ ((trainStates es).drop 1).length := List.countP_le_length _
    _ = es.length := h1

theorem countWrites_pos (es : List EpochData) (h : es ≠ []) : 1 ≤ countWrites es := by
  cases es with
  | nil => exact absurd rfl h
  | cons e es =>
    have hshape : ∃ t, statesFrom (epochStep initState e) es = epochStep initState e :: t :=
      statesFrom_cons_shape _ es
    rcases hshape with ⟨t, ht⟩
    have hsaved : (epochStep initState e).savedThisEpoch = true :=
      epochStep_saved_of_fires initState e rfl
    have hdrop : (trainStates (e :: es)).drop 1 = epochStep initState e :: t := by
      simp [trainStates, statesFrom, ht]
    rw [countWrites, hdrop, List.countP_cons]
    simp [hsaved]

/-! ## Lemmas about the metrics and the rounding -/

theorem bankersRound_nonneg (q : ℚ) (hq : 0 ≤ q) : 0 ≤ bankersRound q := by
  have hf : 0 ≤ ⌊q⌋ := Int.floor_nonneg.mpr hq
  unfold bankersRound
  dsimp only
  split_ifs <;> omega

theorem bankersRound_le (q : ℚ) (m : ℤ) (hq : q ≤ (m : ℚ)) : bankersRound q ≤ m := by
  have hf : ⌊q⌋ ≤ m := by
    have := Int.floor_le_floor hq
    simpa using this
  have hup : ¬ (q - (⌊q⌋ : ℚ) < 1 / 2) → ⌊q⌋ + 1 ≤ m := by
    intro hge
    have h1 : (⌊q⌋ : ℚ) + 1 / 2 ≤ q := by linarith [not_lt.mp hge]
    have h2 : (⌊q⌋ : ℚ) < (m : ℚ) := by linarith
    have h3 : ⌊q⌋ < m := by exact_mod_cast h2
    omega
  unfold bankersRound
  dsimp only
  split_ifs with h1 h2 h3
  · exact hf
  · exact hup h1
  · exact hf
  · exact hup h1

theorem pyRound4_nonneg (q : ℚ) (hq : 0 ≤ q) : 0 ≤ pyRound4 q := by
  unfold pyRound4
  apply div_nonneg _ (by norm_num)
  exact_mod_cast bankersRound_nonneg _ (by positivity)

theorem pyRound4_le_one (q : ℚ) (hq : q ≤ 1) : pyRound4 q ≤ 1 := by
  have h2 : q * 10000 ≤ ((10000 : ℤ) : ℚ) := by push_cast; linarith
  have h3 : bankersRound (q * 10000) ≤ 10000 := bankersRound_le _ 10000 h2
  unfold pyRound4
  rw [div_le_one (by norm_num)]
  exact_mod_cast h3

theorem pyRound4_den (q : ℚ) : ∃ z : ℤ, pyRound4 q = (z : ℚ) / 10000 :=
  ⟨bankersRound (q * 10000), rfl⟩

theorem natRatio_bounds (t d : ℕ) (h : t ≤ d) :
    0 ≤ (t : ℚ) / (d : ℚ) ∧ (t : ℚ) / (d : ℚ) ≤ 1 :=
  ⟨div_nonneg (Nat.cast_nonneg t) (Nat.cast_nonneg d),
   div_le_one_of_le₀ (Nat.cast_le.mpr h) (Nat.cast_nonneg d)⟩

theorem accuracy_score_bounds (yt : List ℚ) (yp : List ℕ) :
    0 ≤ accuracy_score yt yp ∧ accuracy_score yt yp ≤ 1 := by
  unfold accuracy_score matchCount
  apply natRatio_bounds
  calc ((yt.zip yp).countP fun e => decide (e.1 = (e.2 : ℚ)))
      ≤ (yt.zip yp).length := List.countP_le_length _
    _ ≤ yt.length := by rw [List.length_zip]; omega

theorem precision_score_bounds (yt : List ℚ) (yp : List ℕ) :
    0 ≤ precision_score yt yp ∧ precision_score yt yp ≤ 1 := by
  unfold precision_score
  dsimp only
  split_ifs
  · norm_num
  · have h := natRatio_bounds (tpCount yt yp) (tpCount yt yp + fpCount yt yp) (Nat.le_add_right _ _)
    push_cast at h
    exact h

theorem recall_score_bounds (yt : List ℚ) (yp : List ℕ) :
    0 ≤ recall_score yt yp ∧ recall_score yt yp ≤ 1 := by
  unfold recall_score
  dsimp only
  split_ifs
  · norm_num
  · have h := natRatio_bounds (tpCount yt yp) (tpCount yt yp + fnCount yt yp) (Nat.le_add_right _ _)
    push_cast at h
    exact h

theorem f1_score_bounds (yt : List ℚ) (yp : List ℕ) :
    0 ≤ f1_score yt yp ∧ f1_score yt yp ≤ 1 := by
  unfold f1_score
  dsimp only
  split_ifs
  · norm_num
  · have h := natRatio_bounds (2 * tpCount yt yp)
      (2 * tpCount yt yp + fpCount yt yp + fnCount yt yp) (by omega)
    push_cast at h ⊢
    exact h

theorem aucPair_bounds (a c : ℚ) : 0 ≤ aucPair a c ∧ aucPair a c ≤ 1 := by
  unfold aucPair
  split_ifs <;> norm_num

theorem roc_auc_score_bounds (yt ys : List ℚ) :
    0 ≤ roc_auc_score yt ys ∧ roc_auc_score yt ys ≤ 1 := by
  unfold roc_auc_score
  have hinner : ∀ a : ℚ,
      0 ≤ ((negScores yt ys).map fun c => aucPair a c).sum ∧
        ((negScores yt ys).map fun c => aucPair a c).sum ≤ ((negScores yt ys).length : ℚ) := by
    intro a
    constructor
    · apply List.sum_nonneg
      intro x hx
      rcases List.mem_map.mp hx with ⟨c, _, rfl⟩
      exact (aucPair_bounds a c).1
    · have := List.sum_le_card_nsmul ((negScores yt ys).map fun c => aucPair a c) 1
        (by
          intro x hx
          rcases List.mem_map.mp hx with ⟨c, _, rfl⟩
          exact (aucPair_bounds a c).2)
      simpa [List.length_map, nsmul_eq_mul] using this
  have houter :
      0 ≤ ((posScores yt ys).map fun a => ((negScores yt ys).map fun c => aucPair a c).sum).sum ∧
        ((posScores yt ys).map fun a => ((negScores yt ys).map fun c => aucPair a c).sum).sum ≤
          ((posScores yt ys).length : ℚ) * ((negScores yt ys).length : ℚ) := by
    constructor
    · apply List.sum_nonneg
      intro x hx
      rcases List.mem_map.mp hx with ⟨a, _, rfl⟩
      exact (hinner a).1
    · have := List.sum_le_card_nsmul
        ((posScores yt ys).map fun a => ((negScores yt ys).map fun c => aucPair a c).sum)
        ((negScores yt ys).length : ℚ)
        (by
          intro x hx
          rcases List.mem_map.mp hx with ⟨a, _, rfl⟩
          exact (hinner a).2)
      simpa [List.length_map, nsmul_eq_mul] using this
  constructor
  · exact div_nonneg houter.1 (mul_nonneg (Nat.cast_nonneg _) (Nat.cast_nonneg _))
  · exact div_le_one_of_le₀ houter.2 (mul_nonneg (Nat.cast_nonneg _) (Nat.cast_nonneg _))

theorem computeMetrics_mem_bounds (yt ys : List ℚ) (yp : List ℕ) :
    ∀ kv ∈ computeMetrics yt ys yp,
      0 ≤ kv.2 ∧ kv.2 ≤ 1 ∧ ∃ z : ℤ, kv.2 = (z : ℚ) / 10000 := by
  intro kv hkv
  have hbound : ∀ q : ℚ, 0 ≤ q → q ≤ 1 →
      0 ≤ pyRound4 q ∧ pyRound4 q ≤ 1 ∧ ∃ z : ℤ, pyRound4 q = (z : ℚ) / 10000 :=
    fun q h0 h1 => ⟨pyRound4_nonneg q h0, pyRound4_le_one q h1, pyRound4_den q⟩
  simp only [computeMetrics, List.mem_cons, List.not_mem_nil, or_false] at hkv
  rcases hkv with rfl | rfl | rfl | rfl | rfl
  · exact hbound _ (accuracy_score_bounds yt yp).1 (accuracy_score_bounds yt yp).2
  · exact hbound _ (f1_score_bounds yt yp).1 (f1_score_bounds yt yp).2
  · exact hbound _ (precision_score_bounds yt yp).1 (precision_score_bounds yt yp).2
  · exact hbound _ (recall_score_bounds yt yp).1 (recall_score_bounds yt yp).2
  · exact hbound _ (roc_auc_score_bounds yt ys).1 (roc_auc_score_bounds yt ys).2

/-! ## Lemmas about the predictor and the loss -/

theorem sigmoid_nonneg (z : ℝ) : 0 ≤ sigmoid z := by
  unfold sigmoid
  positivity

theorem sigmoid_le_one (z : ℝ) : sigmoid z ≤ 1 := by
  unfold sigmoid
  rw [div_le_one (by positivity)]
  linarith [Real.exp_pos (-z)]

theorem bce_nonneg (y p : ℝ) (hy : y = 0 ∨ y = 1) (h0 : 0 < p) (h1 : p < 1) :
    0 ≤ bce y p := by
  rcases hy with rfl | rfl
  · unfold bce
    have hlog : Real.log (1 - p) ≤ 0 :=
      Real.log_nonpos (by linarith) (by linarith)
    simp only [zero_mul, sub_zero, one_mul, zero_add]
    linarith
  · unfold bce
    have hlog : Real.log p ≤ 0 := Real.log_nonpos (le_of_lt h0) (le_of_lt h1)
    simp only [one_mul, sub_self, zero_mul, add_zero]
    linarith

theorem runningTotal_eq (P : List (List (ℝ × ℝ))) (h : ∀ c ∈ P, c ≠ []) :
    runningTotal P = ((P.flatten).map fun ex => bce ex.1 ex.2).sum := by
  induction P with
  | nil => simp [runningTotal]
  | cons c P ih =>
    have hc : c ≠ [] := h c (List.mem_cons_self c P)
    have hlen : ((c.length : ℕ) : ℝ) ≠ 0 := by
      have : c.length ≠ 0 := fun h0 => hc (List.length_eq_zero.mp h0)
      exact_mod_cast this
    have hP : ∀ d ∈ P, d ≠ [] := fun d hd => h d (List.mem_cons_of_mem c hd)
    calc runningTotal (c :: P)
        = batchLoss c * c.length + runningTotal P := by
          simp [runningTotal]
      _ = (c.map fun ex => bce ex.1 ex.2).sum + runningTotal P := by
          rw [batchLoss, div_mul_cancel₀ _ hlen]
      _ = (c.map fun ex => bce ex.1 ex.2).sum +
            ((P.flatten).map fun ex => bce ex.1 ex.2).sum := by rw [ih hP]
      _ = (((c :: P).flatten).map fun ex => bce ex.1 ex.2).sum := by
          rw [List.flatten_cons, List.map_append, List.sum_append]

theorem collectedPreds_eq (e : EpochData) :
    collectedPreds e = (collectedScores e).map predOf := by
  unfold collectedPreds collectedScores
  rw [List.map_flatten, List.map_map]
  rfl

theorem collected_lengths (e : EpochData)
    (h : ∀ b ∈ e.valBatches, b.scores.length = b.labels.length) :
    (collectedScores e).length = (collectedLabels e).length := by
  unfold collectedScores collectedLabels
  rw [List.length_flatten, List.length_flatten, List.map_map, List.map_map]
  congr 1
  apply List.map_congr_left
  intro b hb
  exact h b hb

/-! ## The claims -/

/-- C1, counterexample: the claim says a checkpoint write occurs iff the
selection rule fires, and in particular that an epoch whose validation loss
exactly ties the current best writes no checkpoint.  In the code the save at
line 213 is gated by `lowest_validation_loss == val_loss`, not by the rule of
line 181: running two epochs with validation loss 1 each, the second epoch
does not fire the rule yet still saves. -/
theorem claim_C1_counterexample :
    fires (runTrain [tieEpoch 0]).lowest_validation_loss (valLossOf (tieEpoch 1)) = false ∧
    (epochStep (runTrain [tieEpoch 0]) (tieEpoch 1)).savedThisEpoch = true := by
  constructor <;>
    norm_num [runTrain, epochStep, initState, tieEpoch, fires, valLossOf, totalValLossOf,
      collectedLabels]

/-- C1 (amended): a checkpoint write occurs in an epoch iff no best-so-far
exists or the epoch validation loss is less than OR EQUAL to the best-so-far
(an exact tie also writes, though it does not update the best state); across
a run the number of writes is at most the number of epochs, and at least 1
when at least one epoch runs. -/
theorem claim_C1 :
    (∀ (s : TrainState) (e : EpochData),
        (epochStep s e).savedThisEpoch = true ↔
          s.lowest_validation_loss = none ∨
            ∃ b, s.lowest_validation_loss = some b ∧ valLossOf e ≤ b) ∧
    (∀ es : List EpochData, countWrites es ≤ es.length) ∧
    (∀ es : List EpochData, es ≠ [] → 1 ≤ countWrites es) :=
  ⟨epochStep_saved_iff, countWrites_le, countWrites_pos⟩

theorem claim_C1_witness :
    ([tieEpoch 0] : List EpochData) ≠ [] ∧ 1 ≤ countWrites [tieEpoch 0] :=
  ⟨by simp, claim_C1.2.2 [tieEpoch 0] (by simp)⟩

/-- C2: `lowest_validation_loss` is set unconditionally on the first epoch,
and after that it is monotonically non-increasing from one epoch to the
next. -/
theorem claim_C2 :
    (∀ e : EpochData, (runTrain [e]).lowest_validation_loss = some (valLossOf e)) ∧
    (∀ (es : List EpochData) (e : EpochData), es ≠ [] →
      ∃ b c, (runTrain es).lowest_validation_loss = some b ∧
        (runTrain (es ++ [e])).lowest_validation_loss = some c ∧ c ≤ b) := by
  constructor
  · intro e
    exact epochStep_lowest_none initState e rfl
  · intro es e hne
    rcases runTrain_lowest_isSome es hne with ⟨b, hb⟩
    rcases epochStep_lowest_le (runTrain es) e b hb with ⟨c, hc, hcb⟩
    exact ⟨b, c, hb, by rw [runTrain_append_one]; exact hc, hcb⟩

theorem claim_C2_witness :
    ([tieEpoch 0] : List EpochData) ≠ [] ∧
    ∃ b c, (runTrain [tieEpoch 0]).lowest_validation_loss = some b ∧
      (runTrain ([tieEpoch 0] ++ [worseEpoch 1])).lowest_validation_loss = some c ∧ c ≤ b :=
  ⟨by simp, claim_C2.2 [tieEpoch 0] (worseEpoch 1) (by simp)⟩

set_option maxRecDepth 8000 in
/-- C3: for batch size b ≥ 1 the DataLoader produces ceil(n / b) batches
covering the dataset, every batch has between 1 and b elements, all batches
except possibly the final one have exactly b; 130 examples at batch size 64
give batches of sizes 64, 64, 2, and 50 examples give one batch of 50. -/
theorem claim_C3 :
    (∀ (b : ℕ) (xs : List ℕ), 1 ≤ b →
        (chunks b xs).length = (xs.length + b - 1) / b ∧
        (chunks b xs).flatten = xs ∧
        (∀ c ∈ chunks b xs, 1 ≤ c.length ∧ c.length ≤ b) ∧
        (∀ i (hi : i + 1 < (chunks b xs).length),
          ((chunks b xs).get ⟨i, Nat.lt_of_succ_lt hi⟩).length = b)) ∧
    (chunks 64 (List.range 130)).map List.length = [64, 64, 2] ∧
    (chunks 64 (List.range 50)).map List.length = [50] := by
  refine ⟨fun b xs hb =>
    ⟨chunks_length b hb xs, chunks_flatten b xs, chunks_mem_length b hb xs,
      chunks_full b hb xs⟩, ?_, ?_⟩
  · rfl
  · rfl

theorem claim_C3_witness :
    1 ≤ 64 ∧
    (chunks 64 (List.range 130)).length = ((List.range 130).length + 64 - 1) / 64 :=
  ⟨by norm_num, (claim_C3.1 64 (List.range 130) (by norm_num)).1⟩

/-- C4: accumulating mean batch loss times batch size and dividing the total
by the dataset size yields the mean per-example binary cross-entropy over
the whole set, for every partition of the set into nonempty batches, and the
result is non-negative (a finite real) when labels are in 0,1 and predicted
probabilities lie strictly between 0 and 1. -/
theorem claim_C4 :
    ∀ (data : List (ℝ × ℝ)) (P : List (List (ℝ × ℝ))),
      P.flatten = data →
      (∀ c ∈ P, c ≠ []) →
      (∀ ex ∈ data, (ex.1 = 0 ∨ ex.1 = 1) ∧ 0 < ex.2 ∧ ex.2 < 1) →
        epochLoss P data.length =
          (data.map fun ex => bce ex.1 ex.2).sum / (data.length : ℝ) ∧
        0 ≤ epochLoss P data.length := by
  intro data P hflat hne hwf
  have hkey : runningTotal P = (data.map fun ex => bce ex.1 ex.2).sum := by
    rw [runningTotal_eq P hne, hflat]
  constructor
  · rw [epochLoss, hkey]
  · rw [epochLoss, hkey]
    apply div_nonneg _ (Nat.cast_nonneg _)
    apply List.sum_nonneg
    intro x hx
    rcases List.mem_map.mp hx with ⟨ex, hex, rfl⟩
    exact bce_nonneg ex.1 ex.2 (hwf ex hex).1 (hwf ex hex).2.1 (hwf ex hex).2.2

theorem claim_C4_witness :
    (([[((1 : ℝ), (1 / 2 : ℝ))]] : List (List (ℝ × ℝ))).flatten =
      [((1 : ℝ), (1 / 2 : ℝ))]) ∧
    (∀ ex ∈ [((1 : ℝ), (1 / 2 : ℝ))], (ex.1 = 0 ∨ ex.1 = 1) ∧ 0 < ex.2 ∧ ex.2 < 1) ∧
    0 ≤ epochLoss [[((1 : ℝ), (1 / 2 : ℝ))]] ([((1 : ℝ), (1 / 2 : ℝ))]).length := by
  have h3 : ∀ ex ∈ [((1 : ℝ), (1 / 2 : ℝ))], (ex.1 = 0 ∨ ex.1 = 1) ∧ 0 < ex.2 ∧ ex.2 < 1 := by
    intro ex hex
    simp only [List.mem_singleton] at hex
    subst hex
    norm_num
  exact ⟨by simp, h3, (claim_C4 _ _ (by simp) (by simp) h3).2⟩

/-- C5, counterexample: the claim says that when the selection rule does not
fire, the on-disk checkpoint is left unchanged; but an epoch whose
validation loss exactly ties the best re-saves the checkpoint with the
current (different) parameters. -/
theorem claim_C5_counterexample :
    fires (runTrain [tieEpoch 0]).lowest_validation_loss (valLossOf (tieEpoch 1)) = false ∧
    (epochStep (runTrain [tieEpoch 0]) (tieEpoch 1)).checkpoint ≠
      (runTrain [tieEpoch 0]).checkpoint := by
  constructor <;>
    norm_num [runTrain, epochStep, initState, tieEpoch, fires, valLossOf, totalValLossOf,
      collectedLabels]

/-- C5 (amended): when the selection rule does not fire, the best state
(`lowest_validation_loss` and the stored metrics snapshot) is left
unchanged, and the checkpoint is also left unchanged PROVIDED the epoch
validation loss does not exactly equal the stored best (on an exact tie the
checkpoint is overwritten). -/
theorem claim_C5 :
    ∀ (s : TrainState) (e : EpochData),
      fires s.lowest_validation_loss (valLossOf e) = false →
        (epochStep s e).lowest_validation_loss = s.lowest_validation_loss ∧
        (epochStep s e).metrics = s.metrics ∧
        (s.lowest_validation_loss ≠ some (valLossOf e) →
          (epochStep s e).checkpoint = s.checkpoint) := by
  intro s e hf
  refine ⟨?_, ?_, ?_⟩
  · rw [epochStep_lowest, hf]
    simp
  · rw [epochStep_metrics, hf]
    simp
  · intro hne
    rw [epochStep_checkpoint, epochStep_saved, epochStep_lowest, hf]
    simp [hne]

theorem claim_C5_witness :
    fires (runTrain [tieEpoch 0]).lowest_validation_loss (valLossOf (worseEpoch 1)) = false ∧
    ((epochStep (runTrain [tieEpoch 0]) (worseEpoch 1)).lowest_validation_loss =
        (runTrain [tieEpoch 0]).lowest_validation_loss ∧
      (epochStep (runTrain [tieEpoch 0]) (worseEpoch 1)).metrics =
        (runTrain [tieEpoch 0]).metrics ∧
      ((runTrain [tieEpoch 0]).lowest_validation_loss ≠ some (valLossOf (worseEpoch 1)) →
        (epochStep (runTrain [tieEpoch 0]) (worseEpoch 1)).checkpoint =
          (runTrain [tieEpoch 0]).checkpoint)) :=
  ⟨by norm_num [runTrain, epochStep, initState, tieEpoch, worseEpoch, fires, valLossOf,
      totalValLossOf, collectedLabels],
   claim_C5 _ _ (by norm_num [runTrain, epochStep, initState, tieEpoch, worseEpoch, fires,
      valLossOf, totalValLossOf, collectedLabels])⟩

/-- C6: the predictor multiplies inputs by the constant 1e-4, transposes the
time and feature axes, runs the sequence model to one scalar per example and
applies a sigmoid, so it returns one probability in the interval 0..1 per
example, and the preprocessing happens with gradient tracking off (the
intermediate tensor never requires gradients, whatever the input flag). -/
theorem claim_C6 :
    ∀ (seqModel : List (List ℝ) → ℝ) (x : TTensor),
      forward seqModel x =
        x.data.map (fun ex =>
          sigmoid (seqModel
            (List.transpose (ex.map fun row => row.map fun v => v * (1 / 10000))))) ∧
      (forward seqModel x).length = x.data.length ∧
      (∀ y ∈ forward seqModel x, 0 ≤ y ∧ y ≤ 1) ∧
      (preprocessed x).requiresGrad = false := by
  intro m x
  have hfwd : forward m x =
      x.data.map (fun ex =>
        sigmoid (m (List.transpose (ex.map fun row => row.map fun v => v * (1 / 10000))))) := by
    unfold forward scaleT transposeT
    dsimp only
    rw [List.map_map, List.map_map, List.map_map]
    rfl
  refine ⟨hfwd, ?_, ?_, ?_⟩
  · rw [hfwd, List.length_map]
  · intro y hy
    rw [hfwd] at hy
    rcases List.mem_map.mp hy with ⟨ex, _, rfl⟩
    exact ⟨sigmoid_nonneg _, sigmoid_le_one _⟩
  · unfold preprocessed transposeT scaleT
    simp

theorem claim_C6_witness :
    sigmoid 0 ∈ forward (fun _ => (0 : ℝ)) ⟨[[]], true⟩ ∧
    0 ≤ sigmoid 0 ∧ sigmoid 0 ≤ 1 := by
  have hmem : sigmoid 0 ∈ forward (fun _ => (0 : ℝ)) ⟨[[]], true⟩ := by
    show sigmoid 0 ∈ [sigmoid 0]
    exact List.mem_singleton.mpr rfl
  exact ⟨hmem, (claim_C6 (fun _ => 0) ⟨[[]], true⟩).2.2.1 (sigmoid 0) hmem⟩

/-- C7: when the selection rule fires, the stored metrics snapshot is
computed from the full collected validation labels, scores and predictions
of that epoch, and every stored value is rounded to exactly 4 decimal places
and lies in the interval 0..1 (the hypotheses state the sklearn
preconditions: binary labels with both classes present). -/
theorem claim_C7 :
    ∀ (s : TrainState) (e : EpochData),
      (∀ t ∈ collectedLabels e, t = 0 ∨ t = 1) →
      (∃ t ∈ collectedLabels e, t = 1) →
      (∃ t ∈ collectedLabels e, t = 0) →
      fires s.lowest_validation_loss (valLossOf e) = true →
        (epochStep s e).metrics =
          computeMetrics (collectedLabels e) (collectedScores e) (collectedPreds e) ∧
        ∀ kv ∈ (epochStep s e).metrics,
          0 ≤ kv.2 ∧ kv.2 ≤ 1 ∧ ∃ z : ℤ, kv.2 = (z : ℚ) / 10000 := by
  intro s e _ _ _ hf
  have hm : (epochStep s e).metrics =
      computeMetrics (collectedLabels e) (collectedScores e) (collectedPreds e) := by
    rw [epochStep_metrics, hf]
    simp
  refine ⟨hm, ?_⟩
  rw [hm]
  exact computeMetrics_mem_bounds _ _ _

theorem claim_C7_witness :
    (∀ t ∈ collectedLabels twoClassEpoch, t = 0 ∨ t = 1) ∧
    fires initState.lowest_validation_loss (valLossOf twoClassEpoch) = true ∧
    ∀ kv ∈ (epochStep initState twoClassEpoch).metrics,
      0 ≤ kv.2 ∧ kv.2 ≤ 1 ∧ ∃ z : ℤ, kv.2 = (z : ℚ) / 10000 := by
  have h1 : ∀ t ∈ collectedLabels twoClassEpoch, t = 0 ∨ t = 1 := by
    intro t ht
    simp only [collectedLabels, twoClassEpoch, List.map_cons, List.map_nil,
      List.flatten_cons, List.flatten_nil, List.append_nil, List.mem_cons,
      List.not_mem_nil, or_false] at ht
    rcases ht with rfl | rfl
    · exact Or.inr rfl
    · exact Or.inl rfl
  have h2 : ∃ t ∈ collectedLabels twoClassEpoch, t = 1 := by
    refine ⟨1, ?_, rfl⟩
    simp [collectedLabels, twoClassEpoch]
  have h3 : ∃ t ∈ collectedLabels twoClassEpoch, t = 0 := by
    refine ⟨0, ?_, rfl⟩
    simp [collectedLabels, twoClassEpoch]
  exact ⟨h1, rfl, (claim_C7 initState twoClassEpoch h1 h2 h3 rfl).2⟩

/-- C8: each collected prediction is 1 iff the corresponding score is
strictly greater than 0.5 (a score of exactly 0.5 predicts 0), and the
collected labels, scores and predictions cover the whole validation set of
the epoch, with equal lengths when the batches are well formed. -/
theorem claim_C8 :
    ∀ (s : TrainState) (e : EpochData),
      (∀ b ∈ e.valBatches, b.scores.length = b.labels.length) →
        (epochStep s e).y_pred = (epochStep s e).y_score.map predOf ∧
        (∀ q : ℚ, predOf q = 1 ↔ 1 / 2 < q) ∧
        predOf (1 / 2) = 0 ∧
        (epochStep s e).y_true = collectedLabels e ∧
        (epochStep s e).y_score = collectedScores e ∧
        (epochStep s e).y_pred.length = (epochStep s e).y_true.length ∧
        (epochStep s e).y_score.length = (epochStep s e).y_true.length := by
  intro s e h
  have h1 : (epochStep s e).y_pred = (epochStep s e).y_score.map predOf := by
    rw [epochStep_y_pred, epochStep_y_score, collectedPreds_eq]
  have hlen : (collectedScores e).length = (collectedLabels e).length :=
    collected_lengths e h
  refine ⟨h1, ?_, ?_, rfl, rfl, ?_, ?_⟩
  · intro q
    by_cases hq : 1 / 2 < q <;> simp [predOf, hq]
  · norm_num [predOf]
  · rw [h1, List.length_map, epochStep_y_score, epochStep_y_true]
    exact hlen
  · rw [epochStep_y_score, epochStep_y_true]
    exact hlen

theorem claim_C8_witness :
    (∀ b ∈ (tieEpoch 0).valBatches, b.scores.length = b.labels.length) ∧
    (epochStep initState (tieEpoch 0)).y_pred =
      (epochStep initState (tieEpoch 0)).y_score.map predOf := by
  have h : ∀ b ∈ (tieEpoch 0).valBatches, b.scores.length = b.labels.length := by
    intro b hb
    simp only [tieEpoch, List.mem_cons, List.not_mem_nil, or_false] at hb
    subst hb
    rfl
  exact ⟨h, (claim_C8 initState (tieEpoch 0) h).1⟩

/-- C9: the per-epoch working state (loss totals and the collected label,
score and prediction lists) is recomputed from scratch inside every epoch,
so each value after an epoch depends only on the data of that epoch, and the
metrics snapshot stored when the rule fires is computed from that single
epoch. -/
theorem claim_C9 :
    ∀ (s : TrainState) (e : EpochData),
      (epochStep s e).total_train_loss = totalTrainLossOf e ∧
      (epochStep s e).total_val_loss = totalValLossOf e ∧
      (epochStep s e).y_true = collectedLabels e ∧
      (epochStep s e).y_score = collectedScores e ∧
      (epochStep s e).y_pred = collectedPreds e ∧
      (fires s.lowest_validation_loss (valLossOf e) = true →
        (epochStep s e).metrics =
          computeMetrics (collectedLabels e) (collectedScores e) (collectedPreds e)) := by
  intro s e
  refine ⟨rfl, rfl, rfl, rfl, rfl, ?_⟩
  intro hf
  rw [epochStep_metrics, hf]
  simp

theorem claim_C9_witness :
    fires initState.lowest_validation_loss (valLossOf (tieEpoch 0)) = true ∧
    (epochStep initState (tieEpoch 0)).metrics =
      computeMetrics (collectedLabels (tieEpoch 0)) (collectedScores (tieEpoch 0))
        (collectedPreds (tieEpoch 0)) :=
  ⟨rfl, (claim_C9 initState (tieEpoch 0)).2.2.2.2.2 rfl⟩

/-- C10: with the epochs argument 0 the loop body never runs: no checkpoint
is written, the best loss stays unset, the metrics mapping stays empty, and
the script still prints the model name line followed by the empty metrics
mapping; the at-least-one-write guarantee therefore needs at least one
epoch. -/
theorem claim_C10 :
    ∀ (model_name : String) (es : List EpochData), es.length = 0 →
      runTrain es = initState ∧
      (runTrain es).lowest_validation_loss = none ∧
      (runTrain es).metrics = [] ∧
      (runTrain es).checkpoint = none ∧
      countWrites es = 0 ∧
      finalReport model_name es = ("MODEL_NAME=" ++ model_name, []) := by
  intro name es h
  have hes : es = [] := List.length_eq_zero.mp h
  subst hes
  exact ⟨rfl, rfl, rfl, rfl, rfl, rfl⟩

theorem claim_C10_witness :
    ([] : List EpochData).length = 0 ∧ countWrites ([] : List EpochData) = 0 :=
  ⟨rfl, (claim_C10 "m" [] rfl).2.2.2.2.1⟩

end TrainPy
